import Mathlib

set_option maxRecDepth 100000

/-!
Verification of the VietQR payload encoder and the image-layout helpers of
`bot.py` (repository `nvth/split-bill-bot`).

Strings are embedded as `List Char`; Python's `len`/indexing count code
points, which matches `List.length` on `String.data`.  Machine integers are
`Nat`/`Int` (Python integers are unbounded, so no wrap-around modelling is
needed); the CRC register is kept in range by the explicit `&&& 0xFFFF`
masks that the source applies.
-/

/-- Character class kept by `normalize_amount`'s cleaning pass
(`ch.isdigit() or ch == '.'` in the source; `Char.isDigit` models the
ASCII digits, the only ones these payloads carry). -/
def isAmountChar (c : Char) : Bool := c.isDigit || c == '.'

/-- Python's `str.split('.')` on a list of characters: the segments between
occurrences of `'.'`, so the result always has (number of dots + 1) parts. -/
def splitDot : List Char → List (List Char)
  | [] => [[]]
  | c :: rest =>
    if c = '.' then [] :: splitDot rest
    else
      match splitDot rest with
      | [] => [[c]]
      | part :: parts => (c :: part) :: parts

/-- The `len(parts) == 2 and len(parts[1]) > 2` test of `normalize_amount`. -/
def fracTooLong (parts : List (List Char)) : Bool :=
  match parts with
  | [_, frac] => decide (2 < frac.length)
  | _ => false

/-- `normalize_amount` from `bot.py` (lines 81-92): keep digits and dots,
reject more than one dot or more than two fractional digits, then strip
leading zeros (`cleaned.lstrip('0') or '0'`). -/
def normalize_amount (raw : List Char) : List Char :=
  if raw = [] then []
  else
    let cleaned := raw.filter isAmountChar
    if cleaned = [] then []
    else
      let parts := splitDot cleaned
      if 2 < parts.length then []
      else if fracTooLong parts then []
      else if cleaned.dropWhile (· == '0') = [] then ['0']
      else cleaned.dropWhile (· == '0')

/-- `str(n)`'s digit list, left-padded with `'0'` to width 2: Python's
`str(len(value)).zfill(2)`.  A three-digit length is passed through
unchanged, exactly as `zfill(2)` does. -/
def zfill2 (l : List Char) : List Char := List.replicate (2 - l.length) '0' ++ l

/-- `tlv` from `bot.py` (lines 63-65). -/
def tlv (tlv_id value : List Char) : List Char :=
  tlv_id ++ zfill2 (Nat.toDigits 10 value.length) ++ value

/-- One shift/XOR round of the CRC loop: lines 73-77 of `bot.py`
(the `&= 0xFFFF` mask runs after every round). -/
def crcShift (crc : Nat) : Nat :=
  (if crc &&& 0x8000 ≠ 0 then (crc <<< 1) ^^^ 0x1021 else crc <<< 1) &&& 0xFFFF

/-- Processing of one input character: `crc ^= ord(ch) << 8` followed by
eight `crcShift` rounds. -/
def crcChar (crc : Nat) (ch : Char) : Nat :=
  crcShift (crcShift (crcShift (crcShift (crcShift (crcShift (crcShift (crcShift
    (crc ^^^ (ch.toNat <<< 8)))))))))

/-- The final CRC register of `crc16_ccitt_false`, starting from `0xFFFF`. -/
def crcVal (data : List Char) : Nat := data.foldl crcChar 0xFFFF

/-- Python's uppercase hexadecimal digit for `n < 16` (`'0'` = 48, `'A'` = 65). -/
def hexDigitChar (n : Nat) : Char :=
  if n < 10 then Char.ofNat (48 + n) else Char.ofNat (55 + n)

/-- Worker for `toHexDigits`: peels hexadecimal digits least-significant
first, accumulating them in front of `ds`; `fuel` only bounds the recursion
and is always sufficient at the call site. -/
def toHexDigitsCore : Nat → Nat → List Char → List Char
  | 0, _, ds => ds
  | fuel + 1, n, ds =>
    if n < 16 then hexDigitChar n :: ds
    else toHexDigitsCore fuel (n / 16) (hexDigitChar (n % 16) :: ds)

/-- Uppercase hexadecimal digit expansion of a natural number, most
significant digit first: the digits produced by Python's `X` format spec. -/
def toHexDigits (n : Nat) : List Char := toHexDigitsCore (n + 1) n []

/-- Zero padding to width 4: the `04` in the `'{:04X}'` format spec. -/
def zfill4 (l : List Char) : List Char := List.replicate (4 - l.length) '0' ++ l

/-- `crc16_ccitt_false` from `bot.py` (lines 68-78): CRC register over the
input characters, rendered as `f'\x7bcrc:04X\x7d'`. -/
def crc16_ccitt_false (data : List Char) : List Char := zfill4 (toHexDigits (crcVal data))

/-- Python's `s.replace(' ', '')`: drop every space character. -/
def strip_spaces (l : List Char) : List Char := l.filter (· != ' ')

/-- Python's `str.isdigit` restricted to ASCII: false on the empty string,
true iff every character is a decimal digit. -/
def pyIsdigit (l : List Char) : Bool := !l.isEmpty && l.all Char.isDigit

/-- `build_vietqr_payload` from `bot.py` (lines 95-136).  The `raise`
statements become `Except.error` with the source's message; the returned
string is the `Except.ok` value.  Empty optional parts vanish from
`''.join(part for part in payload_parts if part)`, which is rendered here
as appending `[]` for an absent part. -/
def build_vietqr_payload (bank_bin account_no account_name amount purpose : List Char) :
    Except (List Char) (List Char) :=
  let clean_bank := strip_spaces bank_bin
  let clean_account := strip_spaces account_no
  if clean_bank = [] ∨ clean_account = [] then
    Except.error "Missing bank BIN or account number".data
  else if pyIsdigit clean_bank = false ∨ (clean_bank.length ≠ 6 ∧ clean_bank.length ≠ 8) then
    Except.error "Invalid bank BIN (should be 6 or 8 digits)".data
  else if pyIsdigit clean_account = false ∨ clean_account.length < 6 then
    Except.error "Invalid account number (digits only, min 6)".data
  else
    let amount_str := normalize_amount amount
    let merchant_name := (if account_name = [] then "NA".data else account_name).take 25
    let purpose_str := purpose.take 99
    let beneficiary := tlv "00".data clean_bank ++ tlv "01".data clean_account
    let merchant_info :=
      tlv "00".data "A000000727".data ++ tlv "01".data beneficiary ++
        tlv "02".data "QRIBFTTA".data
    let payload :=
      tlv "00".data "01".data ++
      tlv "01".data (if amount_str = [] then "11".data else "12".data) ++
      tlv "38".data merchant_info ++
      tlv "52".data "0000".data ++
      tlv "53".data "704".data ++
      (if amount_str = [] then [] else tlv "54".data amount_str) ++
      tlv "58".data "VN".data ++
      tlv "59".data merchant_name ++
      tlv "60".data "HANOI".data ++
      (if purpose_str = [] then [] else tlv "62".data (tlv "08".data purpose_str))
    let crc := crc16_ccitt_false (payload ++ "6304".data)
    Except.ok (payload ++ "63".data ++ "04".data ++ crc)

/-- Python's `str.strip()`: remove leading and trailing whitespace. -/
def py_strip (l : List Char) : List Char :=
  ((l.dropWhile Char.isWhitespace).reverse.dropWhile Char.isWhitespace).reverse

/-- Python's `int(str)` on the strings these settings hold: optional sign
followed by decimal digits, surrounding whitespace ignored; `none` models
the `ValueError` branch. -/
def py_int (l : List Char) : Option Int :=
  let t := py_strip l
  match t with
  | '-' :: ds =>
    if ds.isEmpty then none
    else if ds.all Char.isDigit then some (-(ds.foldl (fun a c => 10 * a + (c.toNat - 48)) 0 : Nat)) else none
  | '+' :: ds =>
    if ds.isEmpty then none
    else if ds.all Char.isDigit then some ((ds.foldl (fun a c => 10 * a + (c.toNat - 48)) 0 : Nat)) else none
  | ds =>
    if ds.isEmpty then none
    else if ds.all Char.isDigit then some ((ds.foldl (fun a c => 10 * a + (c.toNat - 48)) 0 : Nat)) else none

/-- `parse_int` from `bot.py` (lines 884-888): `int(value)` with the given
default on failure. -/
def parse_int (value : List Char) (default : Int) : Int := (py_int value).getD default

/-- `parse_optional_int` from `bot.py` (lines 891-900): `None` for a blank
string, otherwise `int(value)` with `None` on failure. -/
def parse_optional_int (value : List Char) : Option Int :=
  if py_strip value = [] then none else py_int value

/-- The position computation of `compose_qr_on_background` from `bot.py`
(lines 1002-1033), returning the `(x, y)` at which the panel is pasted.
The `QR_PANEL_X`/`QR_PANEL_Y` settings are passed in explicitly
(`get_setting` reads the in-memory `SETTINGS` table).  Python's `//` is
floor division, hence `Int.fdiv`.  The source's `if x is not None` /
`if y is not None` guards before the `-44`/`+39` correction are always
true at that point — both coordinates were assigned just above — so the
correction is applied unconditionally to both axes here. -/
def compose_qr_position (bg_w bg_h panel_w panel_h : Int)
    (x_setting y_setting : List Char)
    (frame_bbox : Option (Int × Int × Int × Int)) : Int × Int :=
  let margin : Int := 24
  let x0 := parse_optional_int x_setting
  let y0 := parse_optional_int y_setting
  let xy : Int × Int :=
    match x0, y0 with
    | some xv, some yv => (xv, yv)
    | xo, yo =>
      match frame_bbox with
      | some (left, top, right, bottom) =>
        let available_w := max 0 (right - left)
        let available_h := max 0 (bottom - top)
        let x1 := xo.getD (left + max 0 ((available_w - panel_w).fdiv 2))
        let y1 := yo.getD (top + max 0 ((available_h - panel_h).fdiv 2))
        (x1 - 44, y1 + 39)
      | none => (xo.getD margin, yo.getD (bg_h - panel_h - margin))
  (max 0 (min xy.1 (bg_w - panel_w)), max 0 (min xy.2 (bg_h - panel_h)))

/-- The size computed by `resize_qr_image` from `bot.py` (lines 1036-1038):
the requested target clamped to the 120-pixel floor (the resized image is
square of this side). -/
def resize_qr_image_size (target_size : Int) : Int := max 120 target_size

/-- `resolve_qr_size` from `bot.py` (lines 1041-1070).  The `QR_SIZE`
setting is passed in explicitly, and the PIL font metrics of the three
label lines are abstracted as the measured `text_height` input (the only
metric the function uses).  Python's `int(x * 0.32)` and `int(x * 0.81)`
are modelled as `x * 32 / 100` and `x * 81 / 100` on nonnegative values,
which agree with the float computation at every size a bitmap can have. -/
def resolve_qr_size (bg_w bg_h : Int) (size_setting : List Char)
    (frame_bbox : Option (Int × Int × Int × Int)) (text_height : Int) : Int :=
  let default_size : Int := min bg_w bg_h * 32 / 100
  let size_trimmed := py_strip size_setting
  if size_trimmed ≠ [] then parse_int size_trimmed default_size
  else
    match frame_bbox with
    | none => default_size
    | some (left, top, right, bottom) =>
      let frame_w := max 0 (right - left)
      let frame_h := max 0 (bottom - top)
      let padding : Int := 16
      let gap : Int := 8
      let frame_margin : Int := 12
      let available_w := max 0 (frame_w - padding * 2 - frame_margin * 2)
      let available_h := max 0 (frame_h - (gap + text_height + padding * 2) - frame_margin * 2)
      let target_size := min available_w available_h * 81 / 100
      if target_size ≤ 0 then default_size else target_size

/-- Uppercase hexadecimal digit predicate: `0`-`9` or `A`-`F`. -/
def isUpperHexDigit (c : Char) : Bool := c.isDigit || ('A' ≤ c && c ≤ 'F')

/-- The payload body that `build_vietqr_payload` assembles for a valid
request, before the checksum trailer is appended (the `payload` local of
the source). -/
def vietqr_body (bank_bin account_no account_name amount purpose : List Char) : List Char :=
  let clean_bank := strip_spaces bank_bin
  let clean_account := strip_spaces account_no
  let amount_str := normalize_amount amount
  let merchant_name := (if account_name = [] then "NA".data else account_name).take 25
  let purpose_str := purpose.take 99
  let beneficiary := tlv "00".data clean_bank ++ tlv "01".data clean_account
  let merchant_info :=
    tlv "00".data "A000000727".data ++ tlv "01".data beneficiary ++
      tlv "02".data "QRIBFTTA".data
  tlv "00".data "01".data ++
  tlv "01".data (if amount_str = [] then "11".data else "12".data) ++
  tlv "38".data merchant_info ++
  tlv "52".data "0000".data ++
  tlv "53".data "704".data ++
  (if amount_str = [] then [] else tlv "54".data amount_str) ++
  tlv "58".data "VN".data ++
  tlv "59".data merchant_name ++
  tlv "60".data "HANOI".data ++
  (if purpose_str = [] then [] else tlv "62".data (tlv "08".data purpose_str))

/-- The validation predicate of `build_vietqr_payload`: the space-stripped
bank BIN is all-digit of length 6 or 8 and the space-stripped account
number is all-digit of length at least 6. -/
def validRequest (bank_bin account_no : List Char) : Prop :=
  pyIsdigit (strip_spaces bank_bin) = true ∧
    ((strip_spaces bank_bin).length = 6 ∨ (strip_spaces bank_bin).length = 8) ∧
    pyIsdigit (strip_spaces account_no) = true ∧
    6 ≤ (strip_spaces account_no).length

instance (b a : List Char) : Decidable (validRequest b a) := by
  unfold validRequest; infer_instance

/-! ### CRC register bounds and hexadecimal formatting -/

theorem crcShift_le (crc : Nat) : crcShift crc ≤ 0xFFFF := Nat.and_le_right

theorem crcChar_le (crc : Nat) (ch : Char) : crcChar crc ch ≤ 0xFFFF := Nat.and_le_right

theorem crcVal_le (data : List Char) : crcVal data ≤ 0xFFFF := by
  have h : ∀ (l : List Char) (init : Nat), init ≤ 0xFFFF → l.foldl crcChar init ≤ 0xFFFF := by
    intro l
    induction l with
    | nil => intro init h; exact h
    | cons c cs ih => intro init _; exact ih (crcChar init c) (crcChar_le init c)
  exact h data 0xFFFF (by omega)

theorem toHexDigitsCore_length_le :
    ∀ (fuel k n : Nat) (ds : List Char), n < 16 ^ (k + 1) → k + 1 ≤ fuel →
      (toHexDigitsCore fuel n ds).length ≤ (k + 1) + ds.length := by
  intro fuel
  induction fuel with
  | zero => intro k n ds _ h2; omega
  | succ fuel ih =>
    intro k n ds h1 h2
    unfold toHexDigitsCore
    split
    · simp only [List.length_cons]; omega
    · rename_i hn
      match k with
      | 0 => omega
      | k' + 1 =>
        have hdiv : n / 16 < 16 ^ (k' + 1) := by
          apply Nat.div_lt_of_lt_mul
          calc n < 16 ^ (k' + 1 + 1) := h1
            _ = 16 * 16 ^ (k' + 1) := by ring
        have := ih k' (n / 16) (hexDigitChar (n % 16) :: ds) hdiv (by omega)
        simp only [List.length_cons] at this
        omega

theorem hexDigitChar_hex : ∀ n, n < 16 → isUpperHexDigit (hexDigitChar n) = true := by decide

theorem toHexDigitsCore_hex :
    ∀ (fuel n : Nat) (ds : List Char), (∀ c ∈ ds, isUpperHexDigit c = true) →
      ∀ c ∈ toHexDigitsCore fuel n ds, isUpperHexDigit c = true := by
  intro fuel
  induction fuel with
  | zero => intro n ds h; exact h
  | succ fuel ih =>
    intro n ds h c hc
    unfold toHexDigitsCore at hc
    split at hc
    · rcases List.mem_cons.mp hc with rfl | hmem
      · exact hexDigitChar_hex n (by omega)
      · exact h c hmem
    · refine ih (n / 16) (hexDigitChar (n % 16) :: ds) ?_ c hc
      intro d hd
      rcases List.mem_cons.mp hd with rfl | hmem
      · exact hexDigitChar_hex _ (Nat.mod_lt n (by omega))
      · exact h d hmem

theorem toHexDigits_length_le (n : Nat) (h : n < 65536) : (toHexDigits n).length ≤ 4 := by
  unfold toHexDigits
  by_cases hn : n < 16
  · unfold toHexDigitsCore
    simp only [hn, if_true]
    simp
  · have := toHexDigitsCore_length_le (n + 1) 3 n [] (by norm_num; omega) (by omega)
    simpa using this

theorem crc16_length (data : List Char) : (crc16_ccitt_false data).length = 4 := by
  have hlt : crcVal data < 65536 := by have := crcVal_le data; omega
  have hle := toHexDigits_length_le (crcVal data) hlt
  unfold crc16_ccitt_false zfill4
  simp only [List.length_append, List.length_replicate]
  omega

theorem crc16_hex (data : List Char) :
    ∀ c ∈ crc16_ccitt_false data, isUpperHexDigit c = true := by
  intro c hc
  unfold crc16_ccitt_false zfill4 at hc
  rcases List.mem_append.mp hc with hmem | hmem
  · have := List.eq_of_mem_replicate hmem
    subst this
    decide
  · exact toHexDigitsCore_hex (crcVal data + 1) (crcVal data) [] (by simp) c hmem

/-! ### Decomposition of a successfully built payload -/

theorem pyIsdigit_ne_nil {l : List Char} (h : pyIsdigit l = true) : l ≠ [] := by
  intro hnil
  subst hnil
  simp [pyIsdigit] at h

theorem build_eq_of_valid (b a n am p : List Char) (h : validRequest b a) :
    build_vietqr_payload b a n am p =
      Except.ok (vietqr_body b a n am p ++ "63".data ++ "04".data ++
        crc16_ccitt_false (vietqr_body b a n am p ++ "6304".data)) := by
  obtain ⟨hb, hblen, ha, halen⟩ := h
  simp only [build_vietqr_payload, vietqr_body]
  rw [if_neg, if_neg, if_neg]
  · intro hc
    rcases hc with hc | hc
    · rw [hc] at ha; simp [pyIsdigit] at ha
    · omega
  · intro hc
    rcases hc with hc | ⟨h6, h8⟩
    · rw [hb] at hc; exact Bool.noConfusion hc
    · rcases hblen with h' | h' <;> omega
  · intro hc
    rcases hc with hc | hc
    · exact pyIsdigit_ne_nil hb hc
    · exact pyIsdigit_ne_nil ha hc

theorem build_error_of_invalid (b a n am p : List Char) (h : ¬ validRequest b a) :
    ∃ msg, build_vietqr_payload b a n am p = Except.error msg := by
  unfold validRequest at h
  simp only [build_vietqr_payload]
  split
  · exact ⟨_, rfl⟩
  · split
    · exact ⟨_, rfl⟩
    · split
      · exact ⟨_, rfl⟩
      · rename_i h1 h2 h3
        exfalso
        apply h
        refine ⟨?_, ?_, ?_, ?_⟩
        · cases hb : pyIsdigit (strip_spaces b)
          · exact absurd (Or.inl hb) h2
          · rfl
        · by_cases h6 : (strip_spaces b).length = 6
          · exact Or.inl h6
          · by_cases h8 : (strip_spaces b).length = 8
            · exact Or.inr h8
            · exact absurd (Or.inr ⟨h6, h8⟩) h2
        · cases hb : pyIsdigit (strip_spaces a)
          · exact absurd (Or.inl hb) h3
          · rfl
        · by_cases hlen : 6 ≤ (strip_spaces a).length
          · exact hlen
          · exact absurd (Or.inr (by omega)) h3

/-! ### Structure of `splitDot` and `dropWhile` -/

theorem splitDot_cons (c : Char) (rest : List Char) :
    splitDot (c :: rest) =
      if c = '.' then [] :: splitDot rest
      else
        match splitDot rest with
        | [] => [[c]]
        | part :: parts => (c :: part) :: parts := rfl

theorem splitDot_ne_nil (l : List Char) : splitDot l ≠ [] := by
  induction l with
  | nil => simp [splitDot]
  | cons c rest ih =>
    rw [splitDot_cons]
    by_cases hc : c = '.'
    · simp [hc]
    · rw [if_neg hc]
      cases h : splitDot rest <;> simp

theorem splitDot_of_not_mem {l : List Char} (h : '.' ∉ l) : splitDot l = [l] := by
  induction l with
  | nil => rfl
  | cons c rest ih =>
    simp only [List.mem_cons] at h
    push_neg at h
    have hc : c ≠ '.' := fun hh => h.1 hh.symm
    rw [splitDot_cons, if_neg hc, ih h.2]

theorem splitDot_append {l1 : List Char} (l2 : List Char) (h : '.' ∉ l1) :
    splitDot (l1 ++ '.' :: l2) = l1 :: splitDot l2 := by
  induction l1 with
  | nil => simp [splitDot]
  | cons c rest ih =>
    simp only [List.mem_cons] at h
    push_neg at h
    have hc : c ≠ '.' := fun hh => h.1 hh.symm
    rw [List.cons_append, splitDot_cons, if_neg hc, ih h.2]

theorem splitDot_eq_single {l x : List Char} (h : splitDot l = [x]) :
    l = x ∧ '.' ∉ x := by
  induction l generalizing x with
  | nil =>
    simp only [splitDot, List.cons.injEq, and_true] at h
    subst h
    exact ⟨rfl, by simp⟩
  | cons c rest ih =>
    rw [splitDot_cons] at h
    by_cases hc : c = '.'
    · rw [if_pos hc] at h
      simp only [List.cons.injEq] at h
      exact absurd h.2 (splitDot_ne_nil rest)
    · rw [if_neg hc] at h
      cases hsr : splitDot rest with
      | nil => exact absurd hsr (splitDot_ne_nil rest)
      | cons part parts =>
        rw [hsr] at h
        simp only [List.cons.injEq] at h
        obtain ⟨hx, hparts⟩ := h
        obtain ⟨hrest, hdot⟩ := ih (x := part) (by rw [hsr, hparts])
        subst hrest
        refine ⟨by rw [← hx], ?_⟩
        rw [← hx]
        simp only [List.mem_cons]
        rintro (hh | hh)
        · exact hc hh.symm
        · exact hdot hh

theorem splitDot_eq_pair {l x f : List Char} (h : splitDot l = [x, f]) :
    l = x ++ '.' :: f ∧ '.' ∉ x ∧ '.' ∉ f := by
  induction l generalizing x f with
  | nil => simp [splitDot] at h
  | cons c rest ih =>
    rw [splitDot_cons] at h
    by_cases hc : c = '.'
    · rw [if_pos hc] at h
      simp only [List.cons.injEq] at h
      obtain ⟨hx, hrest⟩ := h
      obtain ⟨hr, hdot⟩ := splitDot_eq_single hrest
      subst hr
      exact ⟨by rw [← hx, hc, List.nil_append], by rw [← hx]; simp, hdot⟩
    · rw [if_neg hc] at h
      cases hsr : splitDot rest with
      | nil => exact absurd hsr (splitDot_ne_nil rest)
      | cons part parts =>
        rw [hsr] at h
        simp only [List.cons.injEq] at h
        obtain ⟨hx, hparts⟩ := h
        obtain ⟨hrest, hdx, hdf⟩ := ih (x := part) (f := f) (by rw [hsr, hparts])
        refine ⟨?_, ?_, hdf⟩
        · rw [← hx, hrest, List.cons_append]
        · rw [← hx]
          simp only [List.mem_cons]
          rintro (hh | hh)
          · exact hc hh.symm
          · exact hdx hh

theorem dropWhile_idem (q : Char → Bool) (l : List Char) :
    (l.dropWhile q).dropWhile q = l.dropWhile q := by
  induction l with
  | nil => rfl
  | cons c rest ih =>
    by_cases hq : q c = true
    · rw [List.dropWhile_cons_of_pos hq]
      exact ih
    · rw [List.dropWhile_cons_of_neg hq, List.dropWhile_cons_of_neg hq]

theorem dropWhile_append_not {q : Char → Bool} {a : Char} (ha : ¬ q a = true)
    (l1 l2 : List Char) :
    (l1 ++ a :: l2).dropWhile q = l1.dropWhile q ++ a :: l2 := by
  induction l1 with
  | nil =>
    simp only [List.nil_append, List.dropWhile_nil]
    exact List.dropWhile_cons_of_neg ha
  | cons c rest ih =>
    by_cases hq : q c = true
    · rw [List.cons_append, List.dropWhile_cons_of_pos hq, List.dropWhile_cons_of_pos hq, ih]
    · rw [List.cons_append, List.dropWhile_cons_of_neg hq, List.dropWhile_cons_of_neg hq,
        List.cons_append]

theorem mem_of_mem_dropWhile {q : Char → Bool} {c : Char} {l : List Char}
    (h : c ∈ l.dropWhile q) : c ∈ l := by
  induction l with
  | nil => simp at h
  | cons d rest ih =>
    by_cases hq : q d = true
    · rw [List.dropWhile_cons_of_pos hq] at h
      exact List.mem_cons_of_mem d (ih h)
    · rwa [List.dropWhile_cons_of_neg hq] at h

/-! ### `normalize_amount` on already-normalized values -/

theorem normalize_amount_fixed_nodot {r : List Char}
    (hne : r ≠ []) (hall : ∀ c ∈ r, isAmountChar c = true)
    (hnd : '.' ∉ r) (hdw : r.dropWhile (· == '0') = r) :
    normalize_amount r = r := by
  simp only [normalize_amount]
  rw [List.filter_eq_self.mpr hall]
  rw [splitDot_of_not_mem hnd, hdw]
  simp [hne, fracTooLong]

theorem normalize_amount_fixed_dot {ra f : List Char}
    (hall : ∀ c ∈ ra ++ '.' :: f, isAmountChar c = true)
    (hnda : '.' ∉ ra) (hndf : '.' ∉ f) (hflen : f.length ≤ 2)
    (hdw : ra.dropWhile (· == '0') = ra) :
    normalize_amount (ra ++ '.' :: f) = ra ++ '.' :: f := by
  have hne : ra ++ '.' :: f ≠ [] := by simp
  simp only [normalize_amount]
  rw [List.filter_eq_self.mpr hall]
  rw [splitDot_append f hnda, splitDot_of_not_mem hndf]
  have hf2 : ¬ (2 < f.length) := by omega
  rw [dropWhile_append_not (by decide) ra f, hdw]
  simp [hne, fracTooLong, hf2]

theorem normalize_amount_shape (raw : List Char) :
    normalize_amount raw = [] ∨ normalize_amount raw = ['0'] ∨
    (∃ cleaned : List Char,
      (∀ c ∈ cleaned, isAmountChar c = true) ∧
      normalize_amount raw = cleaned.dropWhile (· == '0') ∧
      cleaned.dropWhile (· == '0') ≠ [] ∧
      ('.' ∉ cleaned ∨
        ∃ x f, cleaned = x ++ '.' :: f ∧ '.' ∉ x ∧ '.' ∉ f ∧ f.length ≤ 2)) := by
  by_cases h0 : raw = []
  · left
    simp [normalize_amount, h0]
  by_cases h1 : raw.filter isAmountChar = []
  · left
    simp [normalize_amount, h0, h1]
  by_cases h2 : 2 < (splitDot (raw.filter isAmountChar)).length
  · left
    simp [normalize_amount, h0, h1, h2]
  by_cases h3 : fracTooLong (splitDot (raw.filter isAmountChar)) = true
  · left
    simp [normalize_amount, h0, h1, h2, h3]
  by_cases h4 : (raw.filter isAmountChar).dropWhile (· == '0') = []
  · right; left
    simp [normalize_amount, h0, h1, h2, h3, h4]
  right; right
  refine ⟨raw.filter isAmountChar, fun c hc => (List.mem_filter.mp hc).2, ?_, h4, ?_⟩
  · simp [normalize_amount, h0, h1, h2, h3, h4]
  · cases hsp : splitDot (raw.filter isAmountChar) with
    | nil => exact absurd hsp (splitDot_ne_nil _)
    | cons x parts =>
      cases parts with
      | nil =>
        obtain ⟨hcx, hnd⟩ := splitDot_eq_single hsp
        exact Or.inl (hcx ▸ hnd)
      | cons f parts2 =>
        cases parts2 with
        | nil =>
          obtain ⟨hcf, hndx, hndf⟩ := splitDot_eq_pair hsp
          refine Or.inr ⟨x, f, hcf, hndx, hndf, ?_⟩
          rw [hsp] at h3
          simp [fracTooLong] at h3
          omega
        | cons g parts3 =>
          exfalso
          apply h2
          rw [hsp]
          simp

/-! ### Claim theorems -/

/-- C1: whenever `build_vietqr_payload` succeeds, the returned payload ends
with the checksum tag `63`, the length `04` and exactly four uppercase
hexadecimal digits, and recomputing CRC-16/CCITT-FALSE over all preceding
characters (payload body plus the trailing `6304` prefix) reproduces those
digits. -/
theorem payload_crc_roundtrip (b a n am p out : List Char)
    (h : build_vietqr_payload b a n am p = Except.ok out) :
    ∃ body d, out = body ++ "6304".data ++ d ∧ d.length = 4 ∧
      (∀ c ∈ d, isUpperHexDigit c = true) ∧
      crc16_ccitt_false (body ++ "6304".data) = d := by
  by_cases hv : validRequest b a
  case neg =>
    obtain ⟨msg, he⟩ := build_error_of_invalid b a n am p hv
    rw [he] at h
    exact Except.noConfusion h
  case pos =>
    rw [build_eq_of_valid b a n am p hv] at h
    injection h with h
    refine ⟨vietqr_body b a n am p,
      crc16_ccitt_false (vietqr_body b a n am p ++ "6304".data), ?_,
      crc16_length _, crc16_hex _, rfl⟩
    rw [← h]
    have h63 : "6304".data = "63".data ++ "04".data := rfl
    rw [h63]
    simp [List.append_assoc]

/-- Closed instance of `payload_crc_roundtrip` at spec Scenario A
(bank `970436`, account `0123456789`, name `NGUYEN VAN A`, amount `100000`,
purpose `an trua`). -/
theorem payload_crc_roundtrip_witness :
    validRequest "970436".data "0123456789".data ∧
    ∃ body d,
      vietqr_body "970436".data "0123456789".data "NGUYEN VAN A".data "100000".data
            "an trua".data ++ "63".data ++ "04".data ++
          crc16_ccitt_false (vietqr_body "970436".data "0123456789".data "NGUYEN VAN A".data
            "100000".data "an trua".data ++ "6304".data) =
        body ++ "6304".data ++ d ∧ d.length = 4 ∧
        (∀ c ∈ d, isUpperHexDigit c = true) ∧
        crc16_ccitt_false (body ++ "6304".data) = d :=
  ⟨by decide,
    payload_crc_roundtrip "970436".data "0123456789".data "NGUYEN VAN A".data "100000".data
      "an trua".data _
      (build_eq_of_valid "970436".data "0123456789".data "NGUYEN VAN A".data "100000".data
        "an trua".data (by decide))⟩

/-- C5: `crc16_ccitt_false` matches the CRC-16/CCITT-FALSE reference vector
`crc16_ccitt_false "123456789" = "29B1"`, and on every input its result is
exactly four uppercase hexadecimal digits (register initialised to `0xFFFF`,
polynomial `0x1021`, 8 masked shift/XOR rounds per character, per the
definitions of `crcVal`, `crcChar` and `crcShift`). -/
theorem crc16_reference_vector_and_format :
    crc16_ccitt_false "123456789".data = "29B1".data ∧
      ∀ data : List Char, (crc16_ccitt_false data).length = 4 ∧
        ∀ c ∈ crc16_ccitt_false data, isUpperHexDigit c = true :=
  ⟨by decide, fun data => ⟨crc16_length data, crc16_hex data⟩⟩


/-- C3 counterexample: the raw bank identifier `"970 436"` is not an
all-digit string, yet `build_vietqr_payload` accepts it (spaces are
stripped before validation), so the claimed biconditional over the raw
arguments fails. -/
theorem build_accepts_spaced_bank :
    pyIsdigit "970 436".data = false ∧
      (build_vietqr_payload "970 436".data "0123456789".data [] [] []).isOk = true := by
  constructor
  · decide
  · rw [build_eq_of_valid "970 436".data "0123456789".data [] [] [] (by decide)]
    rfl

/-- C3 (amended): `build_vietqr_payload` returns an error, and no payload,
exactly when — after removing space characters — the bank identifier is
not an all-digit string of exactly 6 or 8 characters or the account number
is not an all-digit string of at least 6 characters; every input passing
these checks yields a complete payload. -/
theorem build_ok_iff_valid (b a n am p : List Char) :
    (build_vietqr_payload b a n am p).isOk = true ↔ validRequest b a := by
  constructor
  · intro h
    by_contra hv
    obtain ⟨msg, he⟩ := build_error_of_invalid b a n am p hv
    rw [he] at h
    exact Bool.noConfusion h
  · intro hv
    rw [build_eq_of_valid b a n am p hv]
    rfl

/-- C4: for every valid request the payload fields appear in the fixed
order 00, 01, 38, 52, 53, (54), 58, 59, 60, (62); the initiation-method
field carries `12` exactly when the normalized amount is nonempty and `11`
otherwise; the amount field 54 is present exactly when the normalized
amount is nonempty; and the purpose container 62 (wrapping sub-field 08)
is present exactly when the clipped purpose is nonempty. -/
theorem payload_field_order (b a n am p : List Char) (h : validRequest b a) :
    ∃ mi crc_digits,
      build_vietqr_payload b a n am p = Except.ok (
        tlv "00".data "01".data ++
        tlv "01".data (if normalize_amount am = [] then "11".data else "12".data) ++
        tlv "38".data mi ++
        tlv "52".data "0000".data ++
        tlv "53".data "704".data ++
        (if normalize_amount am = [] then [] else tlv "54".data (normalize_amount am)) ++
        tlv "58".data "VN".data ++
        tlv "59".data ((if n = [] then "NA".data else n).take 25) ++
        tlv "60".data "HANOI".data ++
        (if p.take 99 = [] then [] else tlv "62".data (tlv "08".data (p.take 99))) ++
        "63".data ++ "04".data ++ crc_digits) := by
  rw [build_eq_of_valid b a n am p h]
  refine ⟨tlv "00".data "A000000727".data ++
    tlv "01".data (tlv "00".data (strip_spaces b) ++ tlv "01".data (strip_spaces a)) ++
    tlv "02".data "QRIBFTTA".data,
    crc16_ccitt_false (vietqr_body b a n am p ++ "6304".data), ?_⟩
  simp only [vietqr_body, List.append_assoc]

/-- Closed instance of `payload_field_order` at spec Scenario A. -/
theorem payload_field_order_witness :
    validRequest "970436".data "0123456789".data ∧
    ∃ mi crc_digits,
      build_vietqr_payload "970436".data "0123456789".data "NGUYEN VAN A".data
          "100000".data "an trua".data = Except.ok (
        tlv "00".data "01".data ++
        tlv "01".data
          (if normalize_amount "100000".data = [] then "11".data else "12".data) ++
        tlv "38".data mi ++
        tlv "52".data "0000".data ++
        tlv "53".data "704".data ++
        (if normalize_amount "100000".data = [] then []
          else tlv "54".data (normalize_amount "100000".data)) ++
        tlv "58".data "VN".data ++
        tlv "59".data
          ((if "NGUYEN VAN A".data = [] then "NA".data else "NGUYEN VAN A".data).take 25) ++
        tlv "60".data "HANOI".data ++
        (if "an trua".data.take 99 = [] then []
          else tlv "62".data (tlv "08".data ("an trua".data.take 99))) ++
        "63".data ++ "04".data ++ crc_digits) :=
  ⟨by decide,
    payload_field_order "970436".data "0123456789".data "NGUYEN VAN A".data "100000".data
      "an trua".data (by decide)⟩

theorem vietqr_body_nil (b a : List Char) :
    vietqr_body b a [] [] [] =
      tlv "00".data "01".data ++ tlv "01".data "11".data ++
      tlv "38".data (tlv "00".data "A000000727".data ++
        tlv "01".data (tlv "00".data (strip_spaces b) ++ tlv "01".data (strip_spaces a)) ++
        tlv "02".data "QRIBFTTA".data) ++
      tlv "52".data "0000".data ++ tlv "53".data "704".data ++
      tlv "58".data "VN".data ++ tlv "59".data "NA".data ++
      tlv "60".data "HANOI".data := by
  have h0 : normalize_amount [] = [] := rfl
  unfold vietqr_body
  rw [h0]
  norm_num

/-- C2 (code bug): an 8-digit bank BIN with a 54-digit all-digit account
number passes validation, and the merchant-info value (100 characters
long) is emitted with the three-digit length marker `100` instead of being
rejected: the payload contains `38` followed by `100` followed by the
100-character value. -/
theorem overlong_merchant_info_emitted :
    validRequest "97043601".data "111111111111111111111111111111111111111111111111111111".data ∧
    ∃ mi rest, mi.length = 100 ∧
      build_vietqr_payload "97043601".data
          "111111111111111111111111111111111111111111111111111111".data [] [] [] =
        Except.ok (tlv "00".data "01".data ++ tlv "01".data "11".data ++
          ("38".data ++ "100".data ++ mi) ++ rest) := by
  have hv : validRequest "97043601".data "111111111111111111111111111111111111111111111111111111".data := by decide
  have hmi : (tlv "00".data "A000000727".data ++
      tlv "01".data (tlv "00".data (strip_spaces "97043601".data) ++
        tlv "01".data (strip_spaces "111111111111111111111111111111111111111111111111111111".data)) ++
      tlv "02".data "QRIBFTTA".data).length = 100 := by decide
  have htlv : tlv "38".data (tlv "00".data "A000000727".data ++
      tlv "01".data (tlv "00".data (strip_spaces "97043601".data) ++
        tlv "01".data (strip_spaces "111111111111111111111111111111111111111111111111111111".data)) ++
      tlv "02".data "QRIBFTTA".data) =
      "38".data ++ "100".data ++ (tlv "00".data "A000000727".data ++
      tlv "01".data (tlv "00".data (strip_spaces "97043601".data) ++
        tlv "01".data (strip_spaces "111111111111111111111111111111111111111111111111111111".data)) ++
      tlv "02".data "QRIBFTTA".data) := by
    rw [tlv, hmi]
    rfl
  have hb := build_eq_of_valid "97043601".data "111111111111111111111111111111111111111111111111111111".data [] [] [] hv
  rw [vietqr_body_nil, htlv] at hb
  refine ⟨hv, tlv "00".data "A000000727".data ++
      tlv "01".data (tlv "00".data (strip_spaces "97043601".data) ++
        tlv "01".data (strip_spaces "111111111111111111111111111111111111111111111111111111".data)) ++
      tlv "02".data "QRIBFTTA".data,
    tlv "52".data "0000".data ++ tlv "53".data "704".data ++
      tlv "58".data "VN".data ++ tlv "59".data "NA".data ++
      tlv "60".data "HANOI".data ++ "63".data ++ "04".data ++
      crc16_ccitt_false ((tlv "00".data "01".data ++ tlv "01".data "11".data ++
        ("38".data ++ "100".data ++ (tlv "00".data "A000000727".data ++
      tlv "01".data (tlv "00".data (strip_spaces "97043601".data) ++
        tlv "01".data (strip_spaces "111111111111111111111111111111111111111111111111111111".data)) ++
      tlv "02".data "QRIBFTTA".data)) ++
        tlv "52".data "0000".data ++ tlv "53".data "704".data ++
        tlv "58".data "VN".data ++ tlv "59".data "NA".data ++
        tlv "60".data "HANOI".data) ++ "6304".data),
    hmi, ?_⟩
  rw [hb]
  simp only [List.append_assoc]


/-- C6: `normalize_amount` is idempotent — normalizing an already-normalized
value returns it unchanged, for every input string. -/
theorem normalize_amount_idem (raw : List Char) :
    normalize_amount (normalize_amount raw) = normalize_amount raw := by
  rcases normalize_amount_shape raw with h | h | ⟨cleaned, hall, heq, hne, hdot⟩
  · rw [h]
    decide
  · rw [h]
    decide
  · rw [heq]
    have hallr : ∀ c ∈ cleaned.dropWhile (· == '0'), isAmountChar c = true :=
      fun c hc => hall c (mem_of_mem_dropWhile hc)
    rcases hdot with hnd | ⟨x, f, hcf, hndx, hndf, hflen⟩
    · exact normalize_amount_fixed_nodot hne hallr
        (fun hm => hnd (mem_of_mem_dropWhile hm)) (dropWhile_idem _ _)
    · subst hcf
      rw [dropWhile_append_not (by decide) x f] at hallr hne ⊢
      exact normalize_amount_fixed_dot hallr
        (fun hm => hndx (mem_of_mem_dropWhile hm)) hndf hflen (dropWhile_idem _ _)


/-- C7 counterexample: with the `QR_SIZE` override set to `50`,
`resolve_qr_size` returns 50 unchanged — not the claimed clamp to the
120-pixel floor. -/
theorem resolve_qr_size_below_floor :
    resolve_qr_size 1000 1000 "50".data none 0 = 50 ∧
      ¬ (120 ≤ resolve_qr_size 1000 1000 "50".data none 0) := by decide

/-- C7 (amended): `resolve_qr_size` itself applies no 120-pixel floor (an
explicit `QR_SIZE` override is returned as parsed, and small defaults pass
through); the floor is enforced downstream by `resize_qr_image`, which
clamps every target to `max 120`, so the rendered QR side length is never
below 120. -/
theorem qr_size_floor_at_resize (bg_w bg_h : Int) (size_setting : List Char)
    (frame_bbox : Option (Int × Int × Int × Int)) (text_height : Int) :
    120 ≤ resize_qr_image_size
      (resolve_qr_size bg_w bg_h size_setting frame_bbox text_height) :=
  le_max_left 120 _

/-- C8 counterexample: a 200×200 panel on a 100×100 background is pasted at
x = 0, violating the claimed bound x ≤ bgW − panelW = −100. -/
theorem compose_position_oversized_panel :
    (compose_qr_position 100 100 200 200 [] [] none).1 = 0 ∧
      ¬ ((compose_qr_position 100 100 200 200 [] [] none).1 ≤ 100 - 200) := by decide

/-- C8 (amended): whenever the panel fits inside the background
(`0 ≤ panelW ≤ bgW` and `0 ≤ panelH ≤ bgH`), the pasted position satisfies
`0 ≤ x ≤ bgW − panelW` and `0 ≤ y ≤ bgH − panelH`; for an oversized panel
the final clamp pins the coordinate to 0 instead. -/
theorem compose_position_in_bounds (bg_w bg_h panel_w panel_h : Int)
    (x_setting y_setting : List Char) (frame_bbox : Option (Int × Int × Int × Int))
    (hw0 : 0 ≤ panel_w) (hw : panel_w ≤ bg_w) (hh0 : 0 ≤ panel_h) (hh : panel_h ≤ bg_h) :
    0 ≤ (compose_qr_position bg_w bg_h panel_w panel_h x_setting y_setting frame_bbox).1 ∧
    (compose_qr_position bg_w bg_h panel_w panel_h x_setting y_setting frame_bbox).1 ≤
      bg_w - panel_w ∧
    0 ≤ (compose_qr_position bg_w bg_h panel_w panel_h x_setting y_setting frame_bbox).2 ∧
    (compose_qr_position bg_w bg_h panel_w panel_h x_setting y_setting frame_bbox).2 ≤
      bg_h - panel_h := by
  unfold compose_qr_position
  dsimp only
  refine ⟨?_, ?_, ?_, ?_⟩ <;> omega

/-- Closed instance of `compose_position_in_bounds` for a 50×50 panel on a
100×100 background with no overrides and no frame box. -/
theorem compose_position_in_bounds_witness :
    (0 : Int) ≤ 50 ∧ (50 : Int) ≤ 100 ∧
    (0 ≤ (compose_qr_position 100 100 50 50 [] [] none).1 ∧
      (compose_qr_position 100 100 50 50 [] [] none).1 ≤ 100 - 50 ∧
      0 ≤ (compose_qr_position 100 100 50 50 [] [] none).2 ∧
      (compose_qr_position 100 100 50 50 [] [] none).2 ≤ 100 - 50) :=
  ⟨by norm_num, by norm_num,
    compose_position_in_bounds 100 100 50 50 [] [] none
      (by norm_num) (by norm_num) (by norm_num) (by norm_num)⟩

/-- C9 counterexample: frame box present, X override `50` configured, no Y
override; the computed X is 50 − 44 = 6 (clamping is inactive here), so the
overridden axis does not keep its configured value before clamping. -/
theorem compose_position_override_shifted :
    (compose_qr_position 1000 1000 100 100 "50".data [] (some (100, 100, 400, 400))).1 = 6 ∧
      (compose_qr_position 1000 1000 100 100 "50".data []
        (some (100, 100, 400, 400))).1 ≠ 50 := by decide

/-- C9 (amended): when a frame box exists and exactly one override is
configured, the axis without an override is frame-centered, and the fixed
correction (−44 on X, +39 on Y) is then applied to BOTH axes — the
overridden axis becomes override−44 (X) respectively override+39 (Y)
before the final clamp, not its raw configured value. -/
theorem compose_position_single_override
    (bg_w bg_h panel_w panel_h left top right bottom : Int) :
    (∀ xs ys xv, parse_optional_int xs = some xv → parse_optional_int ys = none →
      compose_qr_position bg_w bg_h panel_w panel_h xs ys
          (some (left, top, right, bottom)) =
        (max 0 (min (xv - 44) (bg_w - panel_w)),
         max 0 (min (top + max 0 ((max 0 (bottom - top) - panel_h).fdiv 2) + 39)
           (bg_h - panel_h)))) ∧
    (∀ xs ys yv, parse_optional_int xs = none → parse_optional_int ys = some yv →
      compose_qr_position bg_w bg_h panel_w panel_h xs ys
          (some (left, top, right, bottom)) =
        (max 0 (min (left + max 0 ((max 0 (right - left) - panel_w).fdiv 2) - 44)
           (bg_w - panel_w)),
         max 0 (min (yv + 39) (bg_h - panel_h)))) := by
  constructor
  · intro xs ys xv hx hy
    unfold compose_qr_position
    rw [hx, hy]
    rfl
  · intro xs ys yv hx hy
    unfold compose_qr_position
    rw [hx, hy]
    rfl

/-- Closed instance of `compose_position_single_override` for each of the
two single-override configurations. -/
theorem compose_position_single_override_witness :
    parse_optional_int "50".data = some 50 ∧ parse_optional_int [] = none ∧
    compose_qr_position 1000 1000 100 100 "50".data [] (some (100, 100, 400, 400)) =
      (max 0 (min ((50 : Int) - 44) (1000 - 100)),
       max 0 (min (100 + max 0 ((max 0 ((400 : Int) - 100) - 100).fdiv 2) + 39)
         (1000 - 100))) ∧
    parse_optional_int "60".data = some 60 ∧
    compose_qr_position 1000 1000 100 100 [] "60".data (some (100, 100, 400, 400)) =
      (max 0 (min (100 + max 0 ((max 0 ((400 : Int) - 100) - 100).fdiv 2) - 44)
         (1000 - 100)),
       max 0 (min ((60 : Int) + 39) (1000 - 100))) :=
  ⟨by decide, by decide,
    (compose_position_single_override 1000 1000 100 100 100 100 400 400).1
      "50".data [] 50 (by decide) (by decide),
    by decide,
    (compose_position_single_override 1000 1000 100 100 100 100 400 400).2
      [] "60".data 60 (by decide) (by decide)⟩


/-- C10: whenever the cleaned amount splits as an all-zero (possibly empty)
integer part, one dot, and a nonempty fractional part of at most two digits
with no further dot, `normalize_amount` strips the whole integer part and
returns a string starting with `'.'`, and for a valid request
`build_vietqr_payload` embeds that dot-leading string verbatim as the value
of the tag-54 amount field. -/
theorem dot_leading_amount_embedded (raw zs frac b a n p : List Char)
    (hcl : raw.filter isAmountChar = zs ++ '.' :: frac)
    (hz : ∀ c ∈ zs, c = '0')
    (hfne : frac ≠ []) (hfdot : '.' ∉ frac) (hflen : frac.length ≤ 2)
    (hv : validRequest b a) :
    normalize_amount raw = '.' :: frac ∧
    ∃ pre post, build_vietqr_payload b a n raw p =
      Except.ok (pre ++ tlv "54".data ('.' :: frac) ++ post) := by
  have hraw : raw ≠ [] := by
    intro h0
    rw [h0] at hcl
    exact absurd hcl.symm (by simp)
  have hnz : '.' ∉ zs := fun hm => absurd (hz '.' hm) (by decide)
  have hzdrop : zs.dropWhile (· == '0') = [] :=
    List.dropWhile_eq_nil_iff.mpr (fun c hc => by rw [hz c hc]; rfl)
  have hf2 : ¬ (2 < frac.length) := by omega
  have h1 : normalize_amount raw = '.' :: frac := by
    simp only [normalize_amount]
    rw [hcl, if_neg hraw, splitDot_append frac hnz, splitDot_of_not_mem hfdot,
      dropWhile_append_not (by decide) zs frac, hzdrop]
    simp [fracTooLong, hf2]
  refine ⟨h1, ?_⟩
  have hb := build_eq_of_valid b a n raw p hv
  have hbody : vietqr_body b a n raw p =
      tlv "00".data "01".data ++ tlv "01".data "12".data ++
      tlv "38".data (tlv "00".data "A000000727".data ++
        tlv "01".data (tlv "00".data (strip_spaces b) ++ tlv "01".data (strip_spaces a)) ++
        tlv "02".data "QRIBFTTA".data) ++
      tlv "52".data "0000".data ++ tlv "53".data "704".data ++
      tlv "54".data ('.' :: frac) ++ tlv "58".data "VN".data ++
      tlv "59".data ((if n = [] then "NA".data else n).take 25) ++
      tlv "60".data "HANOI".data ++
      (if p.take 99 = [] then [] else tlv "62".data (tlv "08".data (p.take 99))) := by
    simp only [vietqr_body]
    rw [h1]
    simp
  refine ⟨tlv "00".data "01".data ++ tlv "01".data "12".data ++
      tlv "38".data (tlv "00".data "A000000727".data ++
        tlv "01".data (tlv "00".data (strip_spaces b) ++ tlv "01".data (strip_spaces a)) ++
        tlv "02".data "QRIBFTTA".data) ++
      tlv "52".data "0000".data ++ tlv "53".data "704".data,
    tlv "58".data "VN".data ++
      tlv "59".data ((if n = [] then "NA".data else n).take 25) ++
      tlv "60".data "HANOI".data ++
      (if p.take 99 = [] then [] else tlv "62".data (tlv "08".data (p.take 99))) ++
      "63".data ++ "04".data ++
      crc16_ccitt_false (vietqr_body b a n raw p ++ "6304".data), ?_⟩
  rw [hb]
  nth_rewrite 1 [hbody]
  simp only [List.append_assoc]

/-- Closed instance of `dot_leading_amount_embedded` at the amount `0.5`. -/
theorem dot_leading_amount_embedded_witness :
    "0.5".data.filter isAmountChar = ['0'] ++ '.' :: ['5'] ∧
    validRequest "970436".data "0123456789".data ∧
    (normalize_amount "0.5".data = '.' :: ['5'] ∧
      ∃ pre post,
        build_vietqr_payload "970436".data "0123456789".data "NGUYEN VAN A".data
            "0.5".data [] =
          Except.ok (pre ++ tlv "54".data ('.' :: ['5']) ++ post)) :=
  ⟨by decide, by decide,
    dot_leading_amount_embedded "0.5".data ['0'] ['5'] "970436".data "0123456789".data
      "NGUYEN VAN A".data [] (by decide) (by decide) (by decide) (by decide) (by decide)
      (by decide)⟩
